import Mathlib

/-!
# Shared-heap chunk supplier of the jemalloc memory layer

A shallow embedding of `runtime/src/mem/jemalloc/mem-jemalloc.c`.

* Addresses (`void*`, `uintptr_t`) and sizes (`size_t`) are natural numbers
  below `2 ^ W`, where `W` is the address width of the platform; every C
  operation on them is reduced modulo `2 ^ W` explicitly.
* The pointer value `0` is `NULL`.
* `assert` and `chpl_internal_error` do not return; they are the error
  results of the functions below.
* The mutex only serialises the callers of `chunk_alloc`; a call is one
  atomic step on the heap descriptor.
-/

namespace MemJemalloc

set_option linter.unusedVariables false

/-! ## Machine arithmetic -/

/-- Addition of two `W`-bit unsigned values. -/
def wadd (W a b : Nat) : Nat := (a + b) % 2 ^ W

/-- Subtraction of two `W`-bit unsigned values (wraps below zero). -/
def wsub (W a b : Nat) : Nat := (a % 2 ^ W + 2 ^ W - b % 2 ^ W) % 2 ^ W

/-- Bitwise complement of a `W`-bit unsigned value. -/
def wnot (W a : Nat) : Nat := 2 ^ W - 1 - a % 2 ^ W

/-! ## The shared heap -/

/-- The `struct shared_heap` descriptor, without its lock. -/
structure shared_heap where
  base : Nat
  size : Nat
  cur_offset : Nat
  deriving DecidableEq, Repr

/-- The statically zero-initialised `heap` object. -/
def heap_zero : shared_heap := ⟨0, 0, 0⟩

/-- The function `alignHelper`: the aligned index into the shared heap.
`none` is the failed assertion that `alignment` is a power of two. -/
def alignHelper (W base_ptr offset alignment : Nat) : Option Nat :=
  if alignment ≠ 0 ∧ (alignment &&& wsub W alignment 1) = 0 then
    let p := wadd W base_ptr offset
    let p := wsub W (wadd W p alignment) 1 &&& wnot W (wsub W alignment 1)
    some p
  else
    none

/-- What one call of `chunk_alloc` hands back to the allocator: the returned
pointer (`0` is `NULL`), the value of `*commit` on return, and the byte range
`(start, length)` that was zero-filled, if any. -/
structure chunk_ret where
  ptr : Nat
  commit : Bool
  zeroed : Option (Nat × Nat)
  deriving DecidableEq, Repr

/-- The chunk hook `chunk_alloc`: takes memory out of the shared heap.
`none` is the failed assertion inside `alignHelper`. -/
def chunk_alloc (W : Nat) (heap : shared_heap) (chunk size alignment : Nat)
    (zero commit : Bool) (arena_ind : Nat) : Option (chunk_ret × shared_heap) :=
  match alignHelper W heap.base heap.cur_offset alignment with
  | none => none
  | some cur_chunk_base =>
    if chunk ≠ 0 ∧ chunk ≠ cur_chunk_base then
      some (⟨0, commit, none⟩, heap)
    else
      let cur_heap_size := wsub W cur_chunk_base heap.base
      if size > wsub W heap.size cur_heap_size then
        some (⟨0, commit, none⟩, heap)
      else
        let heap1 : shared_heap := { heap with cur_offset := wadd W cur_heap_size size }
        some (⟨cur_chunk_base, true, if zero then some (cur_chunk_base, size) else none⟩, heap1)

/-- One request made to `chunk_alloc`. -/
structure chunk_req where
  chunk : Nat
  size : Nat
  alignment : Nat
  zero : Bool
  deriving DecidableEq, Repr

/-- Sequential calls of `chunk_alloc` against one heap: the results in call
order and the final heap descriptor. -/
def chunk_alloc_seq (W : Nat) : shared_heap → List chunk_req →
    Option (List chunk_ret × shared_heap)
  | heap, [] => some ([], heap)
  | heap, r :: rs =>
    match chunk_alloc W heap r.chunk r.size r.alignment r.zero false 0 with
    | none => none
    | some (res, heap1) =>
      match chunk_alloc_seq W heap1 rs with
      | none => none
      | some (ress, heap2) => some (res :: ress, heap2)

/-- The round-up of `x` to a multiple of `a`, as the specification words it. -/
def align_up (x a : Nat) : Nat := (x + a - 1) / a * a

/-! ## The chunk hooks that opt out -/

/-- The hook `null_dalloc`. The heap descriptor is threaded through to
show that the hook does not write it. -/
def null_dalloc (heap : shared_heap) (chunk size : Nat) (committed : Bool)
    (arena_ind : Nat) : Bool × shared_heap := (true, heap)

/-- The hook `null_commit`. -/
def null_commit (heap : shared_heap) (chunk size offset length arena_ind : Nat) :
    Bool × shared_heap := (true, heap)

/-- The hook `null_decommit`. -/
def null_decommit (heap : shared_heap) (chunk size offset length arena_ind : Nat) :
    Bool × shared_heap := (true, heap)

/-- The hook `null_purge`. -/
def null_purge (heap : shared_heap) (chunk size offset length arena_ind : Nat) :
    Bool × shared_heap := (true, heap)

/-- The hook `null_split`. -/
def null_split (heap : shared_heap) (chunk size size_a size_b : Nat) (committed : Bool)
    (arena_ind : Nat) : Bool × shared_heap := (true, heap)

/-- The hook `null_merge`. -/
def null_merge (heap : shared_heap) (chunk_a size_a chunk_b size_b : Nat) (committed : Bool)
    (arena_ind : Nat) : Bool × shared_heap := (true, heap)

/-! ## The allocator seen through `je_mallctl`, `je_malloc` and `je_free` -/

/-- The functions of this file whose addresses go into a hook table. -/
inductive hook_fn where
  | chunk_alloc
  | null_dalloc
  | null_commit
  | null_decommit
  | null_purge
  | null_split
  | null_merge
  deriving DecidableEq, Repr

/-- The table `chunk_hooks_t`, in field order. -/
structure chunk_hooks_t where
  alloc : hook_fn
  dalloc : hook_fn
  commit : hook_fn
  decommit : hook_fn
  purge : hook_fn
  split : hook_fn
  merge : hook_fn
  deriving DecidableEq, Repr

/-- The `mallctl` names this file reads or writes. -/
inductive mallctl_name where
  | opt_narenas
  | thread_arena
  | arena_chunk_hooks (arena : Nat)
  | arenas_nbins
  | arenas_nlruns
  | arenas_bin_size (cls : Nat)
  | arenas_lrun_size (cls : Nat)
  deriving DecidableEq, Repr

/-- What the allocator double records, in call order. -/
inductive je_event where
  | select_arena (arena : Nat)
  | install_hooks (arena : Nat) (hooks : chunk_hooks_t)
  | malloc (size ptr : Nat)
  | free (ptr : Nat)
  deriving DecidableEq, Repr

/-- An allocator double. `narenas`, `nbins`, `nlruns`, `bin_size` and `lrun_size`
are what the introspection names report; `read_fails` and `write_fails` say
which `je_mallctl` calls return nonzero; `pending sz` lists the addresses
that `je_malloc sz` hands out next (when it is empty `je_malloc` returns
`NULL`); `thread_arena` and `hooks` are the values written so far and `log`
is the record of all writes, allocations and frees. -/
structure jemalloc where
  narenas : Nat
  nbins : Nat
  nlruns : Nat
  bin_size : Nat → Nat
  lrun_size : Nat → Nat
  read_fails : mallctl_name → Bool
  write_fails : je_event → Bool
  pending : Nat → List Nat
  thread_arena : Nat
  hooks : Nat → Option chunk_hooks_t
  log : List je_event

/-- The messages of `chpl_internal_error` in this file. -/
inductive fatal_error where
  | mallctl_value (name : mallctl_name)
  | thread_arena
  | thread_arena_back
  | chunk_hooks
  | use_up_memory
  | heap_size
  | lock_init
  | first_malloc
  deriving DecidableEq, Repr

/-- Why a run stops without returning: a fatal error, a write past the end
of the `classes` array, or an exhausted iteration budget of the `do` loop. -/
inductive stop where
  | fatal (e : fatal_error)
  | out_of_bounds
  | out_of_fuel
  deriving DecidableEq, Repr

/-- A read through `je_mallctl(name, &value, &sz, NULL, 0)`; `none` is a
nonzero return. -/
def je_mallctl_read (s : jemalloc) (name : mallctl_name) : Option Nat :=
  if s.read_fails name then none
  else
    match name with
    | .opt_narenas => some s.narenas
    | .arenas_nbins => some s.nbins
    | .arenas_nlruns => some s.nlruns
    | .arenas_bin_size c => some (s.bin_size c)
    | .arenas_lrun_size c => some (s.lrun_size c)
    | .thread_arena => some s.thread_arena
    | .arena_chunk_hooks _ => none

/-- The write `je_mallctl("thread.arena", NULL, NULL, &arena, sizeof(arena))`. -/
def je_mallctl_thread_arena (s : jemalloc) (arena : Nat) : Option jemalloc :=
  if s.write_fails (.select_arena arena) then none
  else some { s with thread_arena := arena, log := s.log ++ [.select_arena arena] }

/-- The write `je_mallctl("arena.<i>.chunk_hooks", NULL, NULL, &new_hooks, ...)`. -/
def je_mallctl_chunk_hooks (s : jemalloc) (arena : Nat) (new_hooks : chunk_hooks_t) :
    Option jemalloc :=
  if s.write_fails (.install_hooks arena new_hooks) then none
  else some { s with
    hooks := fun i => if i = arena then some new_hooks else s.hooks i,
    log := s.log ++ [.install_hooks arena new_hooks] }

/-- The call `je_malloc(size)` on the double. -/
def je_malloc (s : jemalloc) (size : Nat) : Nat × jemalloc :=
  match s.pending size with
  | [] => (0, { s with log := s.log ++ [.malloc size 0] })
  | p :: rest =>
    (p, { s with
      pending := fun sz => if sz = size then rest else s.pending sz,
      log := s.log ++ [.malloc size p] })

/-- The call `je_free(ptr)` on the double. -/
def je_free (s : jemalloc) (ptr : Nat) : jemalloc :=
  { s with log := s.log ++ [.free ptr] }

/-- The helpers `get_unsigned_mallctl_value` and `get_size_t_mallctl_value`
(one macro body). -/
def get_mallctl_value (s : jemalloc) (mallctl_string : mallctl_name) : Except stop Nat :=
  match je_mallctl_read s mallctl_string with
  | none => .error (.fatal (.mallctl_value mallctl_string))
  | some value => .ok value

/-- The function `get_num_arenas`. -/
def get_num_arenas (s : jemalloc) : Except stop Nat :=
  get_mallctl_value s .opt_narenas

/-- The first loop of `initialize_arenas`, over the arena indices in `arenas`. -/
def initialize_arenas_loop : List Nat → jemalloc → Except stop jemalloc
  | [], s => .ok s
  | arena :: rest, s =>
    match je_mallctl_thread_arena s arena with
    | none => .error (.fatal .thread_arena)
    | some s1 => initialize_arenas_loop rest s1

/-- The function `initialize_arenas`: `for (arena=1; arena<narenas; arena++)`
selects each arena, then arena 0 is selected again. -/
def initialize_arenas (s : jemalloc) : Except stop jemalloc :=
  match get_num_arenas s with
  | .error e => .error e
  | .ok narenas =>
    match initialize_arenas_loop (List.range' 1 (narenas - 1)) s with
    | .error e => .error e
    | .ok s1 =>
      match je_mallctl_thread_arena s1 0 with
      | none => .error (.fatal .thread_arena_back)
      | some s2 => .ok s2

/-- The table `new_hooks` of `replaceChunkHooks`. -/
def new_hooks : chunk_hooks_t :=
  { alloc := .chunk_alloc
    dalloc := .null_dalloc
    commit := .null_commit
    decommit := .null_decommit
    purge := .null_purge
    split := .null_split
    merge := .null_merge }

/-- The loop of `replaceChunkHooks`, over the arena indices in `arenas`. -/
def replaceChunkHooks_loop : List Nat → jemalloc → Except stop jemalloc
  | [], s => .ok s
  | arena :: rest, s =>
    match je_mallctl_chunk_hooks s arena new_hooks with
    | none => .error (.fatal .chunk_hooks)
    | some s1 => replaceChunkHooks_loop rest s1

/-- The function `replaceChunkHooks`: `for (arena=0; arena<narenas; arena++)`. -/
def replaceChunkHooks (s : jemalloc) : Except stop jemalloc :=
  match get_num_arenas s with
  | .error e => .error e
  | .ok narenas => replaceChunkHooks_loop (List.range narenas) s

/-- The function `get_num_small_classes`. -/
def get_num_small_classes (s : jemalloc) : Except stop Nat :=
  get_mallctl_value s .arenas_nbins

/-- The function `get_num_large_classes`. -/
def get_num_large_classes (s : jemalloc) : Except stop Nat :=
  get_mallctl_value s .arenas_nlruns

/-- The function `get_num_small_and_large_classes`; the sum is an `unsigned`,
whose largest value is the parameter `UINT_MAX`. -/
def get_num_small_and_large_classes (UINT_MAX : Nat) (s : jemalloc) : Except stop Nat :=
  match get_num_small_classes s with
  | .error e => .error e
  | .ok small_classes =>
    match get_num_large_classes s with
    | .error e => .error e
    | .ok large_classes => .ok ((small_classes + large_classes) % (UINT_MAX + 1))

/-- One loop of `get_small_and_large_class_sizes`: the sizes reported under
`name 0`, `name 1`, ... for the class indices in the list. -/
def class_sizes_loop (s : jemalloc) (name : Nat → mallctl_name) :
    List Nat → Except stop (List Nat)
  | [] => .ok []
  | cls :: rest =>
    match get_mallctl_value s (name cls) with
    | .error e => .error e
    | .ok sz =>
      match class_sizes_loop s name rest with
      | .error e => .error e
      | .ok szs => .ok (sz :: szs)

/-- The function `get_small_and_large_class_sizes`, writing into an array of
`num_classes` elements: the small sizes, then the large sizes. -/
def get_small_and_large_class_sizes (s : jemalloc) (num_classes : Nat) :
    Except stop (List Nat) :=
  match get_num_small_classes s with
  | .error e => .error e
  | .ok small_classes =>
    match class_sizes_loop s .arenas_bin_size (List.range small_classes) with
    | .error e => .error e
    | .ok smalls =>
      match get_num_large_classes s with
      | .error e => .error e
      | .ok large_classes =>
        match class_sizes_loop s .arenas_lrun_size (List.range large_classes) with
        | .error e => .error e
        | .ok larges =>
          if small_classes + large_classes ≤ num_classes then .ok (smalls ++ larges)
          else .error .out_of_bounds

/-- The function `addressNotInHeap`. -/
def addressNotInHeap (W : Nat) (heap : shared_heap) (ptr : Nat) : Bool :=
  let u_ptr := ptr
  let u_base := heap.base
  let u_top := wadd W u_base heap.size
  decide (u_ptr < u_base) || decide (u_ptr > u_top)

/-- The `do ... while (addressNotInHeap(p))` loop of `useUpMemNotInHeap` for
one class, with an iteration budget; returns the last pointer obtained. -/
def use_up_class (W : Nat) (heap : shared_heap) (alloc_size : Nat) :
    Nat → jemalloc → Except stop (Nat × jemalloc)
  | 0, _ => .error .out_of_fuel
  | fuel + 1, s =>
    match je_malloc s alloc_size with
    | (p, s1) =>
      if p = 0 then .error (.fatal .use_up_memory)
      else if addressNotInHeap W heap p then use_up_class W heap alloc_size fuel s1
      else .ok (p, s1)

/-- The loop `for (class=num_classes-1; class!=UINT_MAX; class--)` of
`useUpMemNotInHeap`; the first argument is `class + 1`. -/
def useUpMemNotInHeap_loop (W : Nat) (heap : shared_heap) (fuel : Nat) (classes : List Nat) :
    Nat → jemalloc → Except stop jemalloc
  | 0, s => .ok s
  | cls + 1, s =>
    match use_up_class W heap (classes.getD cls 0) fuel s with
    | .error e => .error e
    | .ok (p, s1) => useUpMemNotInHeap_loop W heap fuel classes cls (je_free s1 p)

/-- The function `useUpMemNotInHeap`; `fuel` bounds the iterations of the
`do` loop of each class. -/
def useUpMemNotInHeap (W UINT_MAX : Nat) (heap : shared_heap) (fuel : Nat) (s : jemalloc) :
    Except stop jemalloc :=
  match get_num_small_and_large_classes UINT_MAX s with
  | .error e => .error e
  | .ok num_classes =>
    match get_small_and_large_class_sizes s num_classes with
    | .error e => .error e
    | .ok classes => useUpMemNotInHeap_loop W heap fuel classes num_classes s

/-- The function `initializeSharedHeap`. -/
def initializeSharedHeap (W UINT_MAX : Nat) (heap : shared_heap) (fuel : Nat) (s : jemalloc) :
    Except stop jemalloc :=
  match initialize_arenas s with
  | .error e => .error e
  | .ok s1 =>
    match replaceChunkHooks s1 with
    | .error e => .error e
    | .ok s2 => useUpMemNotInHeap W UINT_MAX heap fuel s2

/-- The function `chpl_mem_layerInit`. `heap_base` and `heap_size` are what
`chpl_comm_desired_shared_heap` reports and `mutex_init_ok` says whether
`pthread_mutex_init` returns 0. -/
def chpl_mem_layerInit (W UINT_MAX fuel : Nat) (heap_base heap_size : Nat)
    (mutex_init_ok : Bool) (s : jemalloc) : Except stop (shared_heap × jemalloc) :=
  if heap_base ≠ 0 ∧ heap_size = 0 then .error (.fatal .heap_size)
  else if heap_base ≠ 0 then
    let heap : shared_heap := { base := heap_base, size := heap_size, cur_offset := 0 }
    if mutex_init_ok then
      match initializeSharedHeap W UINT_MAX heap fuel s with
      | .error e => .error e
      | .ok s1 => .ok (heap, s1)
    else .error (.fatal .lock_init)
  else
    match je_malloc s 1 with
    | (p, s1) =>
      if p = 0 then .error (.fatal .first_malloc)
      else .ok (heap_zero, je_free s1 p)

/-- An allocator double with `narenas` arenas, the given small and large
class sizes, no failing `je_mallctl` call and the given allocation script. -/
def double (narenas : Nat) (smalls larges : List Nat) (pending : Nat → List Nat) : jemalloc :=
  { narenas := narenas
    nbins := smalls.length
    nlruns := larges.length
    bin_size := fun c => smalls.getD c 0
    lrun_size := fun c => larges.getD c 0
    read_fails := fun _ => false
    write_fails := fun _ => false
    pending := pending
    thread_arena := 0
    hooks := fun _ => none
    log := [] }

/-- The heap descriptor of a start-up that returned. -/
def heap_of : Except stop (shared_heap × jemalloc) → Option shared_heap
  | .ok (heap, _) => some heap
  | .error _ => none

/-- The log of a run that returned. -/
def log_of : Except stop jemalloc → Option (List je_event)
  | .ok s => some s.log
  | .error _ => none

/-! ## Arithmetic of the aligned index -/

theorem wsub_pow_one {W k : Nat} (hk : k < W) : wsub W (2 ^ k) 1 = 2 ^ k - 1 := by
  have h1 : 2 ^ k < 2 ^ W := Nat.pow_lt_pow_right (by norm_num) hk
  have h2 : 1 < 2 ^ W := Nat.one_lt_two_pow (by omega)
  have h3 : 0 < 2 ^ k := Nat.pos_pow_of_pos k (by norm_num)
  unfold wsub
  rw [Nat.mod_eq_of_lt h1, Nat.mod_eq_of_lt h2]
  have : 2 ^ k + 2 ^ W - 1 = (2 ^ k - 1) + 2 ^ W := by omega
  rw [this, Nat.add_mod_right, Nat.mod_eq_of_lt (by omega)]

theorem pow_assert {W k : Nat} (hk : k < W) :
    2 ^ k ≠ 0 ∧ (2 ^ k &&& wsub W (2 ^ k) 1) = 0 := by
  refine ⟨by positivity, ?_⟩
  rw [wsub_pow_one hk, Nat.and_pow_two_sub_one_eq_mod, Nat.mod_self]

theorem land_mask {W k x : Nat} (hk : k ≤ W) (hx : x < 2 ^ W) :
    x &&& wnot W (2 ^ k - 1) = x / 2 ^ k * 2 ^ k := by
  have h3 : 0 < 2 ^ k := Nat.pos_pow_of_pos k (by norm_num)
  have h1 : 2 ^ k ≤ 2 ^ W := Nat.pow_le_pow_right (by norm_num) hk
  have hlt : 2 ^ k - 1 < 2 ^ W := by omega
  have hm : wnot W (2 ^ k - 1) = 2 ^ W - (2 ^ k - 1 + 1) := by
    unfold wnot
    rw [Nat.mod_eq_of_lt hlt]
    omega
  rw [hm]
  apply Nat.eq_of_testBit_eq
  intro i
  rw [Nat.testBit_land, Nat.testBit_two_pow_sub_succ hlt, Nat.testBit_two_pow_sub_one,
    Nat.mul_comm, Nat.testBit_mul_pow_two, ← Nat.shiftRight_eq_div_pow, Nat.testBit_shiftRight]
  by_cases hik : i < k
  · simp [hik, Nat.not_le.mpr hik]
  · have hki : k ≤ i := Nat.le_of_not_lt hik
    have e : k + (i - k) = i := by omega
    by_cases hiW : i < W
    · simp [hik, hki, hiW, e]
    · have : x.testBit i = false :=
        Nat.testBit_lt_two_pow (lt_of_lt_of_le hx (Nat.pow_le_pow_right (by norm_num) (Nat.le_of_not_lt hiW)))
      simp [hik, hki, hiW, e, this]


theorem wsub_wadd_one {W : Nat} (p a : Nat) (ha : 0 < a) (hW : 0 < W) :
    wsub W (wadd W p a) 1 = (p + a - 1) % 2 ^ W := by
  have h2 : 1 < 2 ^ W := Nat.one_lt_two_pow (by omega)
  unfold wsub wadd
  rw [Nat.mod_mod, Nat.mod_eq_of_lt h2, Nat.add_sub_assoc (le_of_lt h2), Nat.add_mod,
    Nat.mod_mod, ← Nat.add_mod]
  have : p + a + (2 ^ W - 1) = (p + a - 1) + 2 ^ W := by omega
  rw [this, Nat.add_mod_right]

theorem wsub_of_le {W a b : Nat} (hab : b ≤ a) (ha : a < 2 ^ W) : wsub W a b = a - b := by
  unfold wsub
  rw [Nat.mod_eq_of_lt ha, Nat.mod_eq_of_lt (lt_of_le_of_lt hab ha)]
  have : a + 2 ^ W - b = (a - b) + 2 ^ W := by omega
  rw [this, Nat.add_mod_right, Nat.mod_eq_of_lt (by omega)]

theorem align_up_dvd (x a : Nat) : a ∣ align_up x a := Nat.dvd_mul_left a _

theorem le_align_up (x : Nat) {a : Nat} (ha : 0 < a) : x ≤ align_up x a := by
  unfold align_up
  have h := Nat.div_add_mod (x + a - 1) a
  have h2 := Nat.mod_lt (x + a - 1) ha
  rw [Nat.mul_comm] at h
  omega

theorem align_up_lt (x a : Nat) : align_up x a ≤ x + a - 1 := by
  unfold align_up
  exact Nat.div_mul_le_self _ _

theorem align_up_least (x : Nat) {a q : Nat} (ha : 0 < a) (hq : a ∣ q) (hx : x ≤ q) :
    align_up x a ≤ q := by
  obtain ⟨c, rfl⟩ := hq
  unfold align_up
  rw [Nat.mul_comm a c]
  apply Nat.mul_le_mul_right
  apply Nat.le_of_lt_succ
  rw [Nat.div_lt_iff_lt_mul ha]
  have e1 : (c + 1) * a = a * c + a := by ring
  rw [e1]
  omega

theorem alignHelper_pow {W k : Nat} (hk : k < W) (base_ptr offset : Nat) :
    alignHelper W base_ptr offset (2 ^ k)
      = some (((wadd W base_ptr offset + 2 ^ k - 1) % 2 ^ W) / 2 ^ k * 2 ^ k) := by
  have h3 : 0 < 2 ^ k := Nat.pos_pow_of_pos k (by norm_num)
  unfold alignHelper
  rw [if_pos (pow_assert hk)]
  simp only []
  rw [wsub_pow_one hk, wsub_wadd_one _ _ h3 (by omega),
    land_mask (le_of_lt hk) (Nat.mod_lt _ (by positivity))]

theorem alignHelper_exact {W k : Nat} (hk : k < W) {base_ptr offset : Nat}
    (hno : base_ptr + offset + 2 ^ k - 1 < 2 ^ W) :
    alignHelper W base_ptr offset (2 ^ k) = some (align_up (base_ptr + offset) (2 ^ k)) := by
  have h3 : 0 < 2 ^ k := Nat.pos_pow_of_pos k (by norm_num)
  rw [alignHelper_pow hk]
  have e1 : wadd W base_ptr offset = base_ptr + offset := Nat.mod_eq_of_lt (by omega)
  rw [e1, Nat.mod_eq_of_lt hno]
  rfl


/-! ## The two outcomes of `chunk_alloc` -/

theorem chunk_alloc_of_aligned {W : Nat} {heap : shared_heap} {alignment p : Nat}
    (hp : alignHelper W heap.base heap.cur_offset alignment = some p)
    (chunk size : Nat) (zero commit : Bool) (arena_ind : Nat) :
    chunk_alloc W heap chunk size alignment zero commit arena_ind =
      if chunk ≠ 0 ∧ chunk ≠ p then some (⟨0, commit, none⟩, heap)
      else if size > wsub W heap.size (wsub W p heap.base) then some (⟨0, commit, none⟩, heap)
      else some (⟨p, true, if zero then some (p, size) else none⟩,
        { heap with cur_offset := wadd W (wsub W p heap.base) size }) := by
  unfold chunk_alloc
  rw [hp]

theorem chunk_alloc_ptr {W : Nat} {heap heap1 : shared_heap} {chunk size alignment : Nat}
    {zero commit : Bool} {arena_ind : Nat} {r : chunk_ret}
    (hrun : chunk_alloc W heap chunk size alignment zero commit arena_ind = some (r, heap1)) :
    r.ptr = 0 ∨ alignHelper W heap.base heap.cur_offset alignment = some r.ptr := by
  cases hp : alignHelper W heap.base heap.cur_offset alignment with
  | none => simp [chunk_alloc, hp] at hrun
  | some p =>
    rw [chunk_alloc_of_aligned hp] at hrun
    split_ifs at hrun <;> simp only [Option.some.injEq, Prod.mk.injEq] at hrun <;>
      obtain ⟨rfl, _⟩ := hrun <;> simp

/-- Claim C1, as the code has it: a call of `chunk_alloc` with a null
requested address and a power-of-two alignment that returns a non-null
pointer, from a state where `base + cur_offset + alignment - 1` fits the
address width, returns the absolute address `base + cur_offset` rounded up to
a multiple of the alignment (not `base` plus the rounded offset), leaves
`base` and `size` alone and sets the cursor to `(pointer - base) + size`
reduced modulo the address width; the reduction does nothing when the
aligned offset `pointer - base` is at most the heap size, and then the new
cursor is at most the heap size. -/
theorem chunk_alloc_null_request (W k : Nat) (heap heap1 : shared_heap) (size : Nat)
    (zero commit : Bool) (arena_ind : Nat) (r : chunk_ret)
    (hk : k < W) (hno : heap.base + heap.cur_offset + 2 ^ k - 1 < 2 ^ W)
    (hrun : chunk_alloc W heap 0 size (2 ^ k) zero commit arena_ind = some (r, heap1))
    (hptr : r.ptr ≠ 0) :
    r.ptr = align_up (heap.base + heap.cur_offset) (2 ^ k) ∧
    heap1.base = heap.base ∧ heap1.size = heap.size ∧
    heap1.cur_offset = (r.ptr - heap.base + size) % 2 ^ W ∧
    (r.ptr - heap.base ≤ heap.size → heap.size < 2 ^ W →
      heap1.cur_offset = r.ptr - heap.base + size ∧ heap1.cur_offset ≤ heap.size) := by
  have h3 : 0 < 2 ^ k := Nat.pos_pow_of_pos k (by norm_num)
  have hp := alignHelper_exact hk hno
  have hle := le_align_up (heap.base + heap.cur_offset) h3
  have hlt := align_up_lt (heap.base + heap.cur_offset) (2 ^ k)
  generalize align_up (heap.base + heap.cur_offset) (2 ^ k) = p at hp hle hlt ⊢
  have hsub : wsub W p heap.base = p - heap.base := wsub_of_le (by omega) (by omega)
  rw [chunk_alloc_of_aligned hp, if_neg (by simp), hsub] at hrun
  by_cases hfull : size > wsub W heap.size (p - heap.base)
  · rw [if_pos hfull] at hrun
    simp only [Option.some.injEq, Prod.mk.injEq] at hrun
    obtain ⟨rfl, _⟩ := hrun
    exact absurd rfl hptr
  · rw [if_neg hfull] at hrun
    simp only [Option.some.injEq, Prod.mk.injEq] at hrun
    obtain ⟨rfl, rfl⟩ := hrun
    refine ⟨rfl, rfl, rfl, rfl, ?_⟩
    intro hin hsz
    dsimp only at hin ⊢
    rw [wsub_of_le hin hsz] at hfull
    have hsum : p - heap.base + size ≤ heap.size := by omega
    have hcur : wadd W (p - heap.base) size = p - heap.base + size :=
      Nat.mod_eq_of_lt (by omega)
    rw [hcur]
    exact ⟨rfl, hsum⟩

/-- Claim C5: with a non-null requested address, `chunk_alloc` returns `NULL`
and leaves the heap descriptor as it was whenever the requested address
differs from the aligned address it computes, and every non-null pointer it
returns is the requested address. -/
theorem chunk_alloc_requested_address (W : Nat) (heap : shared_heap)
    (chunk size alignment : Nat) (zero commit : Bool) (arena_ind : Nat) (hchunk : chunk ≠ 0) :
    (∀ p, alignHelper W heap.base heap.cur_offset alignment = some p → chunk ≠ p →
      chunk_alloc W heap chunk size alignment zero commit arena_ind
        = some (⟨0, commit, none⟩, heap)) ∧
    (∀ r heap1, chunk_alloc W heap chunk size alignment zero commit arena_ind = some (r, heap1) →
      r.ptr ≠ 0 → r.ptr = chunk) := by
  constructor
  · intro p hp hne
    rw [chunk_alloc_of_aligned hp, if_pos ⟨hchunk, hne⟩]
  · intro r heap1 hrun hptr
    cases hp : alignHelper W heap.base heap.cur_offset alignment with
    | none => simp [chunk_alloc, hp] at hrun
    | some p =>
      rw [chunk_alloc_of_aligned hp] at hrun
      by_cases h1 : chunk ≠ 0 ∧ chunk ≠ p
      · rw [if_pos h1] at hrun
        simp only [Option.some.injEq, Prod.mk.injEq] at hrun
        obtain ⟨rfl, _⟩ := hrun
        exact absurd rfl hptr
      · rw [if_neg h1] at hrun
        by_cases h2 : size > wsub W heap.size (wsub W p heap.base)
        · rw [if_pos h2] at hrun
          simp only [Option.some.injEq, Prod.mk.injEq] at hrun
          obtain ⟨rfl, _⟩ := hrun
          exact absurd rfl hptr
        · rw [if_neg h2] at hrun
          simp only [Option.some.injEq, Prod.mk.injEq] at hrun
          obtain ⟨rfl, _⟩ := hrun
          by_contra hne
          exact h1 ⟨hchunk, fun h => hne h.symm⟩

/-- Claim C10: for a power-of-two alignment `2 ^ k` of the address width and
`base_ptr + offset + alignment - 1` not overflowing, `alignHelper` passes its
assertion and returns the least multiple of the alignment that is at least
`base_ptr + offset`; and every pointer `chunk_alloc` returns for a
power-of-two alignment is a multiple of that alignment. -/
theorem alignHelper_least_multiple (W k : Nat) (hk : k < W) :
    (∀ base_ptr offset, base_ptr + offset + 2 ^ k - 1 < 2 ^ W →
      ∃ p, alignHelper W base_ptr offset (2 ^ k) = some p ∧ 2 ^ k ∣ p ∧ base_ptr + offset ≤ p ∧
        ∀ q, 2 ^ k ∣ q → base_ptr + offset ≤ q → p ≤ q) ∧
    (∀ heap chunk size zero commit arena_ind r heap1,
      chunk_alloc W heap chunk size (2 ^ k) zero commit arena_ind = some (r, heap1) →
      2 ^ k ∣ r.ptr) := by
  have h3 : 0 < 2 ^ k := Nat.pos_pow_of_pos k (by norm_num)
  constructor
  · intro base_ptr offset hno
    exact ⟨_, alignHelper_exact hk hno, align_up_dvd _ _, le_align_up _ h3,
      fun q hq hx => align_up_least _ h3 hq hx⟩
  · intro heap chunk size zero commit arena_ind r heap1 hrun
    rcases chunk_alloc_ptr hrun with h0 | hp
    · rw [h0]
      exact Nat.dvd_zero _
    · rw [alignHelper_pow hk] at hp
      simp only [Option.some.injEq] at hp
      rw [← hp]
      exact Nat.dvd_mul_left _ _

/-- Where the aligned offset stays within the heap, the exhaustion check of
`chunk_alloc` is exact: the call is refused without a change when the aligned
offset plus `size` exceeds the heap size, and otherwise the range
`[p, p + size)` is handed out inside `[base, base + heap.size)`. -/
theorem chunk_alloc_exact_within_heap (W k : Nat) (heap : shared_heap) (size : Nat)
    (zero commit : Bool) (arena_ind : Nat)
    (hk : k < W) (hno : heap.base + heap.cur_offset + 2 ^ k - 1 < 2 ^ W)
    (hsz : heap.size < 2 ^ W)
    (hin : align_up (heap.base + heap.cur_offset) (2 ^ k) - heap.base ≤ heap.size) :
    (align_up (heap.base + heap.cur_offset) (2 ^ k) - heap.base + size > heap.size →
      chunk_alloc W heap 0 size (2 ^ k) zero commit arena_ind
        = some (⟨0, commit, none⟩, heap)) ∧
    (align_up (heap.base + heap.cur_offset) (2 ^ k) - heap.base + size ≤ heap.size →
      chunk_alloc W heap 0 size (2 ^ k) zero commit arena_ind
        = some (⟨align_up (heap.base + heap.cur_offset) (2 ^ k), true,
            if zero then some (align_up (heap.base + heap.cur_offset) (2 ^ k), size) else none⟩,
          { heap with cur_offset :=
              align_up (heap.base + heap.cur_offset) (2 ^ k) - heap.base + size }) ∧
      heap.base ≤ align_up (heap.base + heap.cur_offset) (2 ^ k) ∧
      align_up (heap.base + heap.cur_offset) (2 ^ k) + size ≤ heap.base + heap.size) := by
  have h3 : 0 < 2 ^ k := Nat.pos_pow_of_pos k (by norm_num)
  have hp := alignHelper_exact hk hno
  have hle := le_align_up (heap.base + heap.cur_offset) h3
  have hlt := align_up_lt (heap.base + heap.cur_offset) (2 ^ k)
  generalize align_up (heap.base + heap.cur_offset) (2 ^ k) = p at hp hle hlt hin ⊢
  have hsub : wsub W p heap.base = p - heap.base := wsub_of_le (by omega) (by omega)
  rw [chunk_alloc_of_aligned hp, if_neg (by simp), hsub, wsub_of_le hin hsz]
  constructor
  · intro hgt
    rw [if_pos (by omega)]
  · intro hfit
    rw [if_neg (by omega)]
    have hcur : wadd W (p - heap.base) size = p - heap.base + size :=
      Nat.mod_eq_of_lt (by omega)
    rw [hcur]
    exact ⟨rfl, by omega, by omega⟩

/-- When `base + size` does not overflow, `addressNotInHeap` is false
exactly on the closed interval from `base` to `base + size`. -/
theorem addressNotInHeap_false_iff (W : Nat) (heap : shared_heap) (ptr : Nat)
    (hno : heap.base + heap.size < 2 ^ W) :
    addressNotInHeap W heap ptr = false ↔ heap.base ≤ ptr ∧ ptr ≤ heap.base + heap.size := by
  have e : wadd W heap.base heap.size = heap.base + heap.size := Nat.mod_eq_of_lt hno
  simp only [addressNotInHeap, e, Bool.or_eq_false_iff, decide_eq_false_iff_not, not_lt, gt_iff_lt]

/-- The `do` loop of `useUpMemNotInHeap` for one class, on an allocator that
hands out the addresses `outs`, all rejected by `addressNotInHeap`, and then
an address `p` it accepts: the loop makes `outs.length + 1` requests of the
class size and returns `p`. -/
theorem use_up_class_script (W : Nat) (heap : shared_heap) (alloc_size p : Nat)
    (rest : List Nat) (hp0 : p ≠ 0) (hp : addressNotInHeap W heap p = false) :
    ∀ (outs : List Nat) (fuel : Nat) (s : jemalloc),
      s.pending alloc_size = outs ++ p :: rest →
      (∀ q, q ∈ outs → q ≠ 0 ∧ addressNotInHeap W heap q = true) →
      outs.length < fuel →
      ∃ s1, use_up_class W heap alloc_size fuel s = .ok (p, s1) ∧
        s1.log = s.log ++ outs.map (je_event.malloc alloc_size) ++ [.malloc alloc_size p] ∧
        s1.pending alloc_size = rest := by
  intro outs
  induction outs with
  | nil =>
    intro fuel s hs _ hfuel
    obtain ⟨f, rfl⟩ : ∃ f, fuel = f + 1 := ⟨fuel - 1, by simp at hfuel; omega⟩
    simp only [List.nil_append] at hs
    have hstep : use_up_class W heap alloc_size (f + 1) s
        = .ok (p, { s with
            pending := fun sz => if sz = alloc_size then rest else s.pending sz,
            log := s.log ++ [.malloc alloc_size p] }) := by
      simp only [use_up_class, je_malloc, hs, hp0, hp, if_false, Bool.false_eq_true]
    exact ⟨_, hstep, by simp, by simp⟩
  | cons q outs ih =>
    intro fuel s hs hq hfuel
    obtain ⟨f, rfl⟩ : ∃ f, fuel = f + 1 := ⟨fuel - 1, by simp at hfuel; omega⟩
    simp only [List.cons_append] at hs
    obtain ⟨hq0, hqo⟩ := hq q (List.mem_cons_self _ _)
    have hstep : use_up_class W heap alloc_size (f + 1) s
        = use_up_class W heap alloc_size f
          { s with
            pending := fun sz => if sz = alloc_size then outs ++ p :: rest else s.pending sz,
            log := s.log ++ [.malloc alloc_size q] } := by
      simp only [use_up_class, je_malloc, hs, hq0, hqo, if_false, if_true]
    obtain ⟨s1, h1, h2, h3⟩ := ih f
      { s with
        pending := fun sz => if sz = alloc_size then outs ++ p :: rest else s.pending sz,
        log := s.log ++ [.malloc alloc_size q] }
      (if_pos rfl) (fun x hx => hq x (List.mem_cons_of_mem _ hx))
      (by simp at hfuel; omega)
    refine ⟨s1, by rw [hstep, h1], ?_, h3⟩
    rw [h2]
    simp

/-! ## Bootstrapping the arenas -/

theorem initialize_arenas_loop_ok (l : List Nat) :
    ∀ s s1 : jemalloc, initialize_arenas_loop l s = .ok s1 →
      s1.log = s.log ++ l.map je_event.select_arena ∧ s1.hooks = s.hooks ∧
      s1.narenas = s.narenas ∧ s1.read_fails = s.read_fails ∧
      s1.write_fails = s.write_fails := by
  induction l with
  | nil =>
    intro s s1 h
    simp only [initialize_arenas_loop, Except.ok.injEq] at h
    subst h
    simp
  | cons a rest ih =>
    intro s s1 h
    unfold initialize_arenas_loop je_mallctl_thread_arena at h
    by_cases hf : s.write_fails (.select_arena a) = true
    · simp [hf] at h
    · simp only [hf] at h
      obtain ⟨h1, h2, h3, h4, h5⟩ := ih _ _ h
      simp only at h1 h2 h3 h4 h5
      refine ⟨?_, h2, h3, h4, h5⟩
      rw [h1]
      simp

theorem replaceChunkHooks_loop_ok (l : List Nat) :
    ∀ s s2 : jemalloc, replaceChunkHooks_loop l s = .ok s2 →
      s2.log = s.log ++ l.map (fun a => je_event.install_hooks a new_hooks) ∧
      (∀ i, i ∈ l → s2.hooks i = some new_hooks) ∧
      (∀ i, i ∉ l → s2.hooks i = s.hooks i) ∧
      s2.thread_arena = s.thread_arena := by
  induction l with
  | nil =>
    intro s s2 h
    simp only [replaceChunkHooks_loop, Except.ok.injEq] at h
    subst h
    simp
  | cons a rest ih =>
    intro s s2 h
    unfold replaceChunkHooks_loop je_mallctl_chunk_hooks at h
    by_cases hf : s.write_fails (.install_hooks a new_hooks) = true
    · simp [hf] at h
    · simp only [hf] at h
      obtain ⟨h1, h2, h3, h4⟩ := ih _ _ h
      simp only at h1 h3 h4
      refine ⟨?_, ?_, ?_, h4⟩
      · rw [h1]
        simp
      · intro i hi
        by_cases hir : i ∈ rest
        · exact h2 i hir
        · have hia : i = a := by
            rcases List.mem_cons.mp hi with h | h
            · exact h
            · exact absurd h hir
          rw [h3 i hir, if_pos hia]
      · intro i hi
        have hia : i ≠ a := fun h => hi (h ▸ List.mem_cons_self _ _)
        have hir : i ∉ rest := fun h => hi (List.mem_cons_of_mem _ h)
        rw [h3 i hir, if_neg hia]

/-- Claim C7: when `initialize_arenas` and then `replaceChunkHooks` return on
an allocator double that reports `N` arenas, every arena `0..N-1` holds the
hook table whose seven entries are, in field order, chunk_alloc, null_dalloc,
null_commit, null_decommit, null_purge, null_split and null_merge, every
arena `1..N-1` was selected as the thread arena exactly once during the run,
the thread arena is 0 again, and the writes were made in this order: arenas
`1..N-1` selected, arena 0 selected, that table installed on `0..N-1`. -/
theorem arenas_bootstrapped (s s1 s2 : jemalloc) (N : Nat)
    (hN : get_num_arenas s = .ok N)
    (hinit : initialize_arenas s = .ok s1)
    (hrepl : replaceChunkHooks s1 = .ok s2) :
    (∀ i, i < N → s2.hooks i = some
      (chunk_hooks_t.mk hook_fn.chunk_alloc hook_fn.null_dalloc hook_fn.null_commit
        hook_fn.null_decommit hook_fn.null_purge hook_fn.null_split hook_fn.null_merge)) ∧
    (∀ i, 1 ≤ i → i < N →
      s2.log.count (.select_arena i) = s.log.count (.select_arena i) + 1) ∧
    s2.thread_arena = 0 ∧
    s2.log = s.log ++ (List.range' 1 (N - 1)).map je_event.select_arena
      ++ [.select_arena 0]
      ++ (List.range N).map (fun a => je_event.install_hooks a
      (chunk_hooks_t.mk hook_fn.chunk_alloc hook_fn.null_dalloc hook_fn.null_commit
        hook_fn.null_decommit hook_fn.null_purge hook_fn.null_split hook_fn.null_merge)) := by
  show (∀ i, i < N → s2.hooks i = some new_hooks) ∧
    (∀ i, 1 ≤ i → i < N →
      s2.log.count (.select_arena i) = s.log.count (.select_arena i) + 1) ∧
    s2.thread_arena = 0 ∧
    s2.log = s.log ++ (List.range' 1 (N - 1)).map je_event.select_arena
      ++ [.select_arena 0]
      ++ (List.range N).map (fun a => je_event.install_hooks a new_hooks)
  unfold initialize_arenas at hinit
  rw [hN] at hinit
  simp only at hinit
  cases hl : initialize_arenas_loop (List.range' 1 (N - 1)) s with
  | error e => simp [hl] at hinit
  | ok t =>
    obtain ⟨t1, t2, t3, t4, t5⟩ := initialize_arenas_loop_ok _ _ _ hl
    rw [hl] at hinit
    simp only [je_mallctl_thread_arena] at hinit
    by_cases hf : t.write_fails (.select_arena 0) = true
    · simp [hf] at hinit
    · simp only [hf, Bool.false_eq_true, if_false, Except.ok.injEq] at hinit
      have hN1 : get_num_arenas s1 = .ok N := by
        rw [← hN, ← hinit]
        simp only [get_num_arenas, get_mallctl_value, je_mallctl_read, t3, t4]
      unfold replaceChunkHooks at hrepl
      rw [hN1] at hrepl
      simp only at hrepl
      obtain ⟨r1, r2, r3, r4⟩ := replaceChunkHooks_loop_ok _ _ _ hrepl
      have hlog : s2.log = s.log ++ (List.range' 1 (N - 1)).map je_event.select_arena
          ++ [.select_arena 0]
          ++ (List.range N).map (fun a => je_event.install_hooks a new_hooks) := by
        rw [r1, ← hinit]
        simp only
        rw [t1]
      refine ⟨fun i hi => r2 i (List.mem_range.mpr hi), ?_, ?_, hlog⟩
      · intro i hi1 hiN
        rw [hlog]
        simp only [List.count_append]
        have hinj : Function.Injective je_event.select_arena := by
          intro a b hab
          injection hab
        have c1 : List.count (je_event.select_arena i)
            ((List.range' 1 (N - 1)).map je_event.select_arena) = 1 := by
          rw [List.count_map_of_injective _ _ hinj]
          exact List.count_eq_one_of_mem (List.nodup_range' 1 (N - 1))
            (List.mem_range'_1.mpr ⟨hi1, by omega⟩)
        have c2 : List.count (je_event.select_arena i) [je_event.select_arena 0] = 0 := by
          apply List.count_eq_zero_of_not_mem
          simp
          omega
        have c3 : List.count (je_event.select_arena i)
            ((List.range N).map (fun a => je_event.install_hooks a new_hooks)) = 0 := by
          apply List.count_eq_zero_of_not_mem
          simp
        rw [c1, c2, c3]
      · rw [r4, ← hinit]

/-- On an allocator double none of whose `je_mallctl` calls fails,
`initialize_arenas` and then `replaceChunkHooks` both return. -/
theorem bootstrap_returns (s : jemalloc) (hr : ∀ n, s.read_fails n = false)
    (hw : ∀ e, s.write_fails e = false) :
    ∃ s1 s2, initialize_arenas s = .ok s1 ∧ replaceChunkHooks s1 = .ok s2 := by
  have loop1 : ∀ (l : List Nat) (t : jemalloc), (∀ e, t.write_fails e = false) →
      ∃ t1, initialize_arenas_loop l t = .ok t1 := by
    intro l
    induction l with
    | nil => exact fun t _ => ⟨t, rfl⟩
    | cons a rest ih =>
      intro t ht
      simp only [initialize_arenas_loop, je_mallctl_thread_arena, ht, Bool.false_eq_true,
        if_false]
      exact ih _ ht
  have loop2 : ∀ (l : List Nat) (t : jemalloc), (∀ e, t.write_fails e = false) →
      ∃ t1, replaceChunkHooks_loop l t = .ok t1 := by
    intro l
    induction l with
    | nil => exact fun t _ => ⟨t, rfl⟩
    | cons a rest ih =>
      intro t ht
      simp only [replaceChunkHooks_loop, je_mallctl_chunk_hooks, ht, Bool.false_eq_true,
        if_false]
      exact ih _ ht
  have hN : get_num_arenas s = .ok s.narenas := by
    simp [get_num_arenas, get_mallctl_value, je_mallctl_read, hr]
  obtain ⟨t, ht⟩ := loop1 (List.range' 1 (s.narenas - 1)) s hw
  obtain ⟨_, _, t3, t4, t5⟩ := initialize_arenas_loop_ok _ _ _ ht
  have hinit : initialize_arenas s
      = .ok { t with thread_arena := 0, log := t.log ++ [.select_arena 0] } := by
    simp [initialize_arenas, hN, ht, je_mallctl_thread_arena, t5, hw]
  obtain ⟨u, hu⟩ := loop2 (List.range s.narenas)
    { t with thread_arena := 0, log := t.log ++ [.select_arena 0] }
    (fun e => by simp [t5, hw])
  refine ⟨_, u, hinit, ?_⟩
  have hN1 : get_num_arenas
      { t with thread_arena := 0, log := t.log ++ [.select_arena 0] } = .ok s.narenas := by
    simp [get_num_arenas, get_mallctl_value, je_mallctl_read, t3, t4, hr]
  simp only [replaceChunkHooks, hN1]
  exact hu

/-- Claim C8: each of `null_dalloc`, `null_commit`, `null_decommit`,
`null_purge`, `null_split` and `null_merge` returns true for every argument
tuple and hands the heap descriptor back as it received it. -/
theorem null_hooks_opt_out (heap : shared_heap) (chunk size offset length size_a size_b
    chunk_b arena_ind : Nat) (committed : Bool) :
    null_dalloc heap chunk size committed arena_ind = (true, heap) ∧
    null_commit heap chunk size offset length arena_ind = (true, heap) ∧
    null_decommit heap chunk size offset length arena_ind = (true, heap) ∧
    null_purge heap chunk size offset length arena_ind = (true, heap) ∧
    null_split heap chunk size size_a size_b committed arena_ind = (true, heap) ∧
    null_merge heap chunk size_a chunk_b size_b committed arena_ind = (true, heap) :=
  ⟨rfl, rfl, rfl, rfl, rfl, rfl⟩

/-! ## Runs on concrete inputs -/

/-- Claim C1 as written is false on the code: with `base = 0x10008` the first 16-aligned
reservation comes back at `0x10010` with cursor 108, not at
`base + align_up 0 16 = 0x10008` with cursor 100; and in the scenario
`base = 0x10000`, cursor 100, the reservation of 50 bytes aligned to 64
comes back at `0x10080` with cursor 178, not at `0x10040` with cursor 114. -/
theorem chunk_alloc_offset_rounding_refuted :
    (chunk_alloc 64 ⟨0x10008, 4096, 0⟩ 0 100 16 false false 0
        = some (⟨0x10010, true, none⟩, ⟨0x10008, 4096, 108⟩) ∧
      0x10010 ≠ 0x10008 + align_up 0 16 ∧ 108 ≠ align_up 0 16 + 100) ∧
    (chunk_alloc 64 ⟨0x10000, 4096, 0⟩ 0 100 16 false false 0
        = some (⟨0x10000, true, none⟩, ⟨0x10000, 4096, 100⟩) ∧
      chunk_alloc 64 ⟨0x10000, 4096, 100⟩ 0 50 64 false false 0
        = some (⟨0x10080, true, none⟩, ⟨0x10000, 4096, 178⟩) ∧
      0x10080 ≠ 0x10040 ∧ 178 ≠ 114) := by
  decide

/-- The scenario of claim C1 on a 64-bit machine: from `base = 0x10000`,
`size = 4096`, cursor 100, reserving 50 bytes aligned to `2 ^ 6` returns
`0x10080 = align_up (0x10000 + 100) 64` and moves the cursor to 178. -/
theorem chunk_alloc_null_request_witness :
    chunk_alloc 64 ⟨0x10000, 4096, 100⟩ 0 50 (2 ^ 6) false false 0
      = some (⟨0x10080, true, none⟩, ⟨0x10000, 4096, 178⟩) ∧
    (0x10080 = align_up (0x10000 + 100) (2 ^ 6) ∧
      (0x10000 : Nat) = 0x10000 ∧ (4096 : Nat) = 4096 ∧
      178 = (0x10080 - 0x10000 + 50) % 2 ^ 64 ∧
      (0x10080 - 0x10000 ≤ 4096 → 4096 < 2 ^ 64 →
        178 = 0x10080 - 0x10000 + 50 ∧ 178 ≤ 4096)) :=
  ⟨by decide,
    chunk_alloc_null_request 64 6 ⟨0x10000, 4096, 100⟩ ⟨0x10000, 4096, 178⟩ 50 false false 0
      ⟨0x10080, true, none⟩ (by decide) (by decide) (by decide) (by decide)⟩

/-- The code breaks claim C2: from the state `chpl_mem_layerInit` sets up
for `base = 0x10000`, `size = 4096`, the calls `(100, 16)` and `(64, 8192)`
both return a pointer; the second range starts at `0x12000`, past the end
`0x11000` of the heap, and the cursor ends at 8256, above the size 4096. -/
theorem cursor_exceeds_size_after_aligned_gap :
    heap_of (chpl_mem_layerInit 64 (2 ^ 32 - 1) 1 0x10000 4096 true
        (double 1 [] [] (fun _ => []))) = some ⟨0x10000, 4096, 0⟩ ∧
    chunk_alloc_seq 64 ⟨0x10000, 4096, 0⟩ [⟨0, 100, 16, false⟩, ⟨0, 64, 8192, false⟩]
      = some ([⟨0x10000, true, none⟩, ⟨0x12000, true, none⟩], ⟨0x10000, 4096, 8256⟩) ∧
    ¬ (8256 ≤ 4096) ∧ ¬ (0x12000 + 64 ≤ 0x10000 + 4096) := by
  decide

/-- The code breaks claim C3: in the state `base = 0x10000`, `size = 4096`,
cursor 100, a request of 64 bytes aligned to 8192 has aligned offset 8192,
and `8192 + 64 > 4096`, yet the call returns `0x12000` and moves the cursor
to 8256: `heap.size - cur_heap_size` wrapped around. -/
theorem exhaustion_check_wraps :
    chunk_alloc 64 ⟨0x10000, 4096, 100⟩ 0 64 8192 false false 0
      = some (⟨0x12000, true, none⟩, ⟨0x10000, 4096, 8256⟩) ∧
    align_up 100 8192 + 64 > 4096 ∧
    (0x12000 - 0x10000) + 64 > 4096 ∧
    wsub 64 4096 (0x12000 - 0x10000) = 2 ^ 64 - 4096 := by
  decide

/-- The code breaks claim C4: against `base = 0x10000`, `size = 4096` the
calls `(64, 8192)`, `(2 ^ 64 - 8192, 8192)` and `(64, 16)` all return a
pointer; the second passes the wrapped exhaustion check and wraps the cursor
to 0, so the third returns `[0x10000, 0x10040)`, the range of the first. -/
theorem ranges_overlap_after_cursor_wrap :
    chunk_alloc_seq 64 ⟨0x10000, 4096, 0⟩
        [⟨0, 64, 8192, false⟩, ⟨0, 2 ^ 64 - 8192, 8192, false⟩, ⟨0, 64, 16, false⟩]
      = some ([⟨0x10000, true, none⟩, ⟨0x12000, true, none⟩, ⟨0x10000, true, none⟩],
          ⟨0x10000, 4096, 64⟩) := by
  decide

/-- A requested address that is the aligned address is granted, any other
one is refused: the heap `base = 0x10000`, cursor 100 grants `0x10080` for
alignment 64. -/
theorem chunk_alloc_requested_address_witness :
    (0x10040 : Nat) ≠ 0 ∧
    ((∀ p, alignHelper 64 0x10000 100 64 = some p → 0x10040 ≠ p →
      chunk_alloc 64 ⟨0x10000, 4096, 100⟩ 0x10040 50 64 false false 0
        = some (⟨0, false, none⟩, ⟨0x10000, 4096, 100⟩)) ∧
    (∀ r heap1, chunk_alloc 64 ⟨0x10000, 4096, 100⟩ 0x10040 50 64 false false 0
        = some (r, heap1) → r.ptr ≠ 0 → r.ptr = 0x10040)) :=
  ⟨by decide,
    chunk_alloc_requested_address 64 ⟨0x10000, 4096, 100⟩ 0x10040 50 64 false false 0
      (by decide)⟩

/-- The code breaks claim C6: with one class of 8 bytes and an allocator
that hands out `0x11000` (one past the end of the heap `[0x10000, 0x11000)`)
and then `0x10010`, `useUpMemNotInHeap` makes one request, not two, and
frees the out-of-region pointer `0x11000`. -/
theorem use_up_stops_at_heap_end :
    log_of (useUpMemNotInHeap 64 (2 ^ 32 - 1) ⟨0x10000, 4096, 0⟩ 8
        (double 1 [8] [] (fun sz => if sz = 8 then [0x11000, 0x10010] else [])))
      = some [.malloc 8 0x11000, .free 0x11000] ∧
    ¬ (0x11000 < 0x10000 + 4096) ∧
    (0x10000 ≤ 0x10010 ∧ 0x10010 < 0x10000 + 4096) := by
  decide

/-- An allocator double with three arenas, bootstrapped: arenas 1 and 2
are selected, then arena 0, and the table (chunk_alloc, null_dalloc,
null_commit, null_decommit, null_purge, null_split, null_merge) is installed
on arenas 0, 1 and 2. -/
theorem arenas_bootstrapped_witness :
    ∃ s1 s2, get_num_arenas (double 3 [] [] (fun _ => [])) = .ok 3 ∧
      initialize_arenas (double 3 [] [] (fun _ => [])) = .ok s1 ∧
      replaceChunkHooks s1 = .ok s2 ∧
      ((∀ i, i < 3 → s2.hooks i = some
        (chunk_hooks_t.mk hook_fn.chunk_alloc hook_fn.null_dalloc hook_fn.null_commit
        hook_fn.null_decommit hook_fn.null_purge hook_fn.null_split hook_fn.null_merge)) ∧
      (∀ i, 1 ≤ i → i < 3 →
        s2.log.count (.select_arena i)
          = (double 3 [] [] (fun _ => [])).log.count (.select_arena i) + 1) ∧
      s2.thread_arena = 0 ∧
      s2.log = (double 3 [] [] (fun _ => [])).log
        ++ (List.range' 1 (3 - 1)).map je_event.select_arena
        ++ [.select_arena 0]
        ++ (List.range 3).map (fun a => je_event.install_hooks a
        (chunk_hooks_t.mk hook_fn.chunk_alloc hook_fn.null_dalloc hook_fn.null_commit
        hook_fn.null_decommit hook_fn.null_purge hook_fn.null_split hook_fn.null_merge))) :=
  ⟨{ double 3 [] [] (fun _ => []) with
      thread_arena := 0
      log := [.select_arena 1, .select_arena 2, .select_arena 0] },
    { double 3 [] [] (fun _ => []) with
      thread_arena := 0
      hooks := fun i => if i = 2 then some new_hooks else if i = 1 then some new_hooks
        else if i = 0 then some new_hooks else none
      log := [.select_arena 1, .select_arena 2, .select_arena 0,
        .install_hooks 0 new_hooks, .install_hooks 1 new_hooks, .install_hooks 2 new_hooks] },
    rfl, rfl, rfl,
    arenas_bootstrapped (double 3 [] [] (fun _ => [])) _ _ 3 rfl rfl rfl⟩

/-- The code breaks claim C9: for the heap `[0x10000, 0x11000)` the address
`0x11000`, one past the end, is not reported as outside the heap. -/
theorem addressNotInHeap_accepts_end :
    addressNotInHeap 64 ⟨0x10000, 4096, 0⟩ 0x11000 = false ∧
    0x10000 + 4096 < 2 ^ 64 ∧
    ¬ (0x10000 ≤ 0x11000 ∧ 0x11000 < 0x10000 + 4096) := by
  decide

/-- On a 64-bit machine `alignHelper 0x10000 100 64` is `0x10080`. -/
theorem alignHelper_least_multiple_witness :
    6 < 64 ∧
    ((∀ base_ptr offset, base_ptr + offset + 2 ^ 6 - 1 < 2 ^ 64 →
      ∃ p, alignHelper 64 base_ptr offset (2 ^ 6) = some p ∧ 2 ^ 6 ∣ p ∧ base_ptr + offset ≤ p ∧
        ∀ q, 2 ^ 6 ∣ q → base_ptr + offset ≤ q → p ≤ q) ∧
    (∀ heap chunk size zero commit arena_ind r heap1,
      chunk_alloc 64 heap chunk size (2 ^ 6) zero commit arena_ind = some (r, heap1) →
      2 ^ 6 ∣ r.ptr)) :=
  ⟨by decide, alignHelper_least_multiple 64 6 (by decide)⟩

end MemJemalloc
